import Mathlib

/-!
# Verification of the Utah-Permit-Practice deck logic

A shallow embedding of the core logic of `src/App.tsx`:

* `shuffleArray` — the Fisher–Yates shuffle (lines 22–29); the ambient
  `Math.random()` stream is made explicit as a function `RandSrc : Nat → Nat`
  whose value at loop index `i` is reduced `% (i + 1)` (the JS expression
  `Math.floor(Math.random() * (index + 1))` always lies in `[0, index]`,
  and every such sequence is realisable).
* `buildOptions` / `buildDeck` — distractor selection and deck construction
  (lines 31–107).  The JS `Set` is modelled by an insertion-ordered,
  exactly-deduplicated list; `String.prototype.trim` / `toLowerCase` by
  `jsTrim` / `jsToLower` over the character list; `Array.prototype.findIndex`
  by `jsFindIndex` (`none` for `-1`).
* the session state machine (`handleOptionClick`, `handleNext`,
  `startPracticeTest`), the practice-test summary computation, and the
  startup theme resolution (`getPreferredTheme`).

All definitions are executable; randomness is universally quantified in the
theorems.
-/

/-- One stream of random draws, one value per shuffle loop index. -/
def RandSrc : Type := Nat → Nat

/-- The simultaneous assignment
`[draft[index], draft[swapIndex]] = [draft[swapIndex], draft[index]]`
(App.tsx line 26). Both indices are always in range at the call sites. -/
def listSwap {α : Type} (l : List α) (i j : Nat) : List α :=
  match l[i]?, l[j]? with
  | some a, some b => (l.set i b).set j a
  | _, _ => l

/-- The descending loop of `shuffleArray` (App.tsx lines 24–27):
index runs from `draft.length - 1` down to `1`. -/
def fyLoop {α : Type} (g : RandSrc) : Nat → List α → List α
  | 0, l => l
  | i + 1, l => fyLoop g i (listSwap l (i + 1) (g (i + 1) % (i + 2)))

/-- `shuffleArray` (App.tsx lines 22–29).  The copy `[...input]` at line 23
is reflected by the purely functional reading: the argument is never
modified, only the returned list is built by swaps. -/
def shuffleArray {α : Type} (g : RandSrc) (input : List α) : List α :=
  fyLoop g (input.length - 1) input

theorem cons_set_perm {α : Type} :
    ∀ (t : List α) (j : Nat) (a b : α), t[j]? = some b →
      List.Perm (b :: t.set j a) (a :: t) := by
  intro t
  induction t with
  | nil => intro j a b h; simp at h
  | cons x s ih =>
    intro j a b h
    cases j with
    | zero =>
      simp only [List.getElem?_cons_zero, Option.some.injEq] at h
      subst h
      simpa using List.Perm.swap a x s
    | succ j =>
      simp only [List.getElem?_cons_succ] at h
      simp only [List.set_cons_succ]
      have step1 : List.Perm (b :: x :: s.set j a) (x :: b :: s.set j a) :=
        List.Perm.swap _ _ _
      have step2 : List.Perm (x :: b :: s.set j a) (x :: a :: s) :=
        List.Perm.cons _ (ih j a b h)
      have step3 : List.Perm (x :: a :: s) (a :: x :: s) := List.Perm.swap _ _ _
      exact (step1.trans step2).trans step3

theorem swap_set_perm {α : Type} :
    ∀ (l : List α) (i j : Nat) (a b : α), l[i]? = some a → l[j]? = some b →
      List.Perm ((l.set i b).set j a) l := by
  intro l
  induction l with
  | nil => intro i j a b h1; simp at h1
  | cons x t ih =>
    intro i j a b h1 h2
    cases i with
    | zero =>
      simp only [List.getElem?_cons_zero, Option.some.injEq] at h1
      subst h1
      cases j with
      | zero =>
        simp only [List.getElem?_cons_zero, Option.some.injEq] at h2
        subst h2
        simp
      | succ j =>
        simp only [List.getElem?_cons_succ] at h2
        simp only [List.set_cons_zero, List.set_cons_succ]
        exact cons_set_perm t j x b h2
    | succ i =>
      simp only [List.getElem?_cons_succ] at h1
      cases j with
      | zero =>
        simp only [List.getElem?_cons_zero, Option.some.injEq] at h2
        subst h2
        simp only [List.set_cons_succ, List.set_cons_zero]
        exact cons_set_perm t i x a h1
      | succ j =>
        simp only [List.getElem?_cons_succ] at h2
        simp only [List.set_cons_succ]
        exact List.Perm.cons _ (ih i j a b h1 h2)

theorem listSwap_perm {α : Type} (l : List α) (i j : Nat) :
    List.Perm (listSwap l i j) l := by
  unfold listSwap
  cases h1 : l[i]? with
  | none => exact List.Perm.refl l
  | some a =>
    cases h2 : l[j]? with
    | none => exact List.Perm.refl l
    | some b => exact swap_set_perm l i j a b h1 h2

theorem fyLoop_perm {α : Type} (g : RandSrc) :
    ∀ (n : Nat) (l : List α), List.Perm (fyLoop g n l) l := by
  intro n
  induction n with
  | zero => intro l; exact List.Perm.refl l
  | succ i ih =>
    intro l
    exact (ih _).trans (listSwap_perm l (i + 1) (g (i + 1) % (i + 2)))

theorem shuffleArray_perm {α : Type} (g : RandSrc) (input : List α) :
    List.Perm (shuffleArray g input) input :=
  fyLoop_perm g (input.length - 1) input

/-- Model of JavaScript `String.prototype.trim` (used at App.tsx lines 41
and 43): drop whitespace from the front, then from the back, of the
character list. -/
def jsTrim (s : String) : String :=
  String.mk (List.rdropWhile Char.isWhitespace
    (List.dropWhile Char.isWhitespace s.data))

/-- Model of JavaScript `String.prototype.toLowerCase` (App.tsx line 43):
character-wise lowering. -/
def jsToLower (s : String) : String :=
  String.mk (s.data.map Char.toLower)

/-- The comparison key used by `addCandidate`: trimmed, case-folded. -/
def ciKey (s : String) : String :=
  jsToLower (jsTrim s)

theorem dropWhile_cons_not {α : Type} (p : α → Bool) :
    ∀ (l : List α) (c : α) (cs : List α),
      List.dropWhile p l = c :: cs → ¬ p c = true := by
  intro l
  induction l with
  | nil => intro c cs h; simp [List.dropWhile] at h
  | cons x t ih =>
    intro c cs h
    by_cases hx : p x
    · rw [List.dropWhile_cons_of_pos hx] at h
      exact ih c cs h
    · rw [List.dropWhile_cons_of_neg hx] at h
      have hxc : x = c := (List.cons.injEq x t c cs ▸ h).1
      rw [← hxc]
      exact hx

theorem jsTrim_idem (s : String) : jsTrim (jsTrim s) = jsTrim s := by
  unfold jsTrim
  congr 1
  set p := Char.isWhitespace with hp
  set A := List.dropWhile p s.data with hA
  have hdrop : List.dropWhile p (List.rdropWhile p A) = List.rdropWhile p A := by
    rcases hB : List.rdropWhile p A with _ | ⟨c, cs⟩
    · simp
    · have hpre : List.rdropWhile p A <+: A := List.rdropWhile_prefix p A
      rw [hB] at hpre
      obtain ⟨rest, hrest⟩ := hpre
      have hAc : ∃ tl, A = c :: tl := by
        rcases hAd : A with _ | ⟨a0, tl⟩
        · rw [hAd] at hrest; simp at hrest
        · rw [hAd] at hrest
          simp only [List.cons_append, List.cons.injEq] at hrest
          exact ⟨tl, by rw [hrest.1]⟩
      obtain ⟨tl, hAc⟩ := hAc
      have hnp : ¬ p c = true := by
        refine dropWhile_cons_not p s.data c tl ?_
        rw [← hA]
        exact hAc
      rw [List.dropWhile_cons_of_neg hnp]
  rw [hdrop, List.rdropWhile_idempotent]

theorem jsTrim_empty : jsTrim "" = "" := rfl

/-- Model of JavaScript `Array.prototype.findIndex` (App.tsx line 80):
`none` models the `-1` result. -/
def jsFindIndex {α : Type} (p : α → Bool) : List α → Option Nat
  | [] => none
  | a :: l => if p a then some 0 else (jsFindIndex p l).map (· + 1)

theorem jsFindIndex_self {α : Type} [BEq α] [LawfulBEq α] (a : α) :
    ∀ (l : List α), a ∈ l →
      ∃ i, jsFindIndex (fun o => o == a) l = some i ∧ l[i]? = some a := by
  intro l
  induction l with
  | nil => intro h; simp at h
  | cons x t ih =>
    intro h
    by_cases hx : x = a
    · refine ⟨0, ?_, ?_⟩
      · simp [jsFindIndex, hx]
      · simp [hx]
    · have hmem : a ∈ t := by
        rcases List.mem_cons.mp h with h1 | h1
        · exact absurd h1.symm hx
        · exact h1
      obtain ⟨i, hfind, hget⟩ := ih hmem
      refine ⟨i + 1, ?_, ?_⟩
      · have hxb : (x == a) = false := by simpa using hx
        simp [jsFindIndex, hxb, hfind]
      · simpa using hget

/-- `FlashcardSource` (src/data/questions.ts shape, as consumed by
App.tsx): `distractors` and `imageUrl` are optional. -/
structure FlashcardSource where
  id : String
  prompt : String
  answer : String
  distractors : Option (List String)
  reference : String
  category : String
  imageUrl : Option String
deriving DecidableEq

/-- `PermitQuestion` (App.tsx lines 8–17). -/
structure PermitQuestion where
  id : String
  prompt : String
  options : List String
  answerIndex : Nat
  answer : String
  reference : String
  category : String
  imageUrl : Option String
deriving DecidableEq

/-- `desiredOptionCount` (App.tsx line 36). -/
def desiredOptionCount : Nat := 4

/-- `addCandidate` (App.tsx lines 39–45).  The JS `Set` of distractors is
an insertion-ordered list deduplicated under exact string equality; the
`!candidate` test covers both `undefined` (the `none` case) and the empty
string. -/
def addCandidate (answer : String) (s : List String) (candidate : Option String) :
    List String :=
  match candidate with
  | none => s
  | some c =>
    if c = "" then s
    else
      let trimmed := jsTrim c
      if trimmed = "" then s
      else if jsToLower trimmed = jsToLower (jsTrim answer) then s
      else if s.contains trimmed then s
      else s ++ [trimmed]

/-- One step of the `for … of` loop in `fillFromAnswers` (App.tsx lines
64–67): `break` once the set holds `desiredOptionCount - 1` entries,
otherwise `addCandidate`. -/
def fillStep (answer : String) (acc : List String) (c : String) : List String :=
  if desiredOptionCount - 1 ≤ acc.length then acc else addCandidate answer acc (some c)

/-- `fillFromAnswers` (App.tsx lines 61–68). -/
def fillFromAnswers (answer : String) (g : RandSrc) (s : List String)
    (pool : List String) : List String :=
  if pool.length = 0 then s
  else (shuffleArray g pool).foldl (fillStep answer) s

/-- The curated-distractor pass of `buildOptions` (App.tsx lines 47–51):
visit the shuffled `source.distractors` and add each while the set holds
fewer than `desiredOptionCount - 1` entries. -/
def distractorPhase (answer : String) (g : RandSrc)
    (distractors : Option (List String)) : List String :=
  match distractors with
  | some ds =>
    if ds.length ≠ 0 then
      (shuffleArray g ds).foldl
        (fun acc item =>
          if acc.length < desiredOptionCount - 1 then addCandidate answer acc (some item)
          else acc) []
    else []
  | none => []

/-- The four independent `Math.random()` streams consumed by one
`buildOptions` call (one per potential `shuffleArray` call). -/
structure OptRng where
  dist : RandSrc
  cat : RandSrc
  glob : RandSrc
  opts : RandSrc

/-- `buildOptions` (App.tsx lines 31–86). -/
def buildOptions (r : OptRng) (source : FlashcardSource)
    (categoryPool globalPool : List FlashcardSource) : List String × Nat :=
  let s1 := distractorPhase source.answer r.dist source.distractors
  let categoryAnswers :=
    (categoryPool.filter (fun item => item.id != source.id)).map (fun item => item.answer)
  let globalAnswers :=
    (globalPool.filter (fun item => item.id != source.id)).map (fun item => item.answer)
  let s2 := if s1.length < desiredOptionCount - 1 then
      fillFromAnswers source.answer r.cat s1 categoryAnswers
    else s1
  let s3 := if s2.length < desiredOptionCount - 1 then
      fillFromAnswers source.answer r.glob s2 globalAnswers
    else s2
  let combined := source.answer :: s3.take (desiredOptionCount - 1)
  let options := shuffleArray r.opts combined
  let answerIndex := (jsFindIndex (fun o => o == source.answer) options).getD 0
  (options, answerIndex)

/-- The per-deck random streams: one `OptRng` per card position plus the
stream for the final deck shuffle. -/
structure DeckRng where
  per : Nat → OptRng
  deck : RandSrc

/-- The body of the `sources.map` in `buildDeck` (App.tsx lines 91–104). -/
def mkCard (r : OptRng) (globalPool : List FlashcardSource)
    (source : FlashcardSource) : PermitQuestion :=
  let categoryPool := globalPool.filter (fun item => item.category == source.category)
  let res := buildOptions r source categoryPool globalPool
  { id := source.id
    prompt := source.prompt
    options := res.1
    answerIndex := res.2
    answer := source.answer
    reference := source.reference
    category := source.category
    imageUrl := source.imageUrl }

/-- The `sources.map` of `buildDeck`, with the position made explicit so
that each card consumes its own random streams. -/
def buildCards (r : DeckRng) (globalPool : List FlashcardSource) :
    Nat → List FlashcardSource → List PermitQuestion
  | _, [] => []
  | i, src :: rest => mkCard (r.per i) globalPool src :: buildCards r globalPool (i + 1) rest

/-- `buildDeck` (App.tsx lines 88–107). -/
def buildDeck (r : DeckRng) (sources globalPool : List FlashcardSource) :
    List PermitQuestion :=
  if sources.length = 0 then []
  else shuffleArray r.deck (buildCards r globalPool 0 sources)

/-- The invariant maintained by the distractor set: exact-equality
deduplicated, every member is its own trim, and no member case-folds to
the (trimmed) correct answer. -/
def DistractorInv (answer : String) (s : List String) : Prop :=
  s.Nodup ∧ ∀ x ∈ s, jsTrim x = x ∧ jsToLower x ≠ jsToLower (jsTrim answer)

theorem DistractorInv_nil (answer : String) : DistractorInv answer [] := by
  constructor
  · exact List.nodup_nil
  · intro x hx; simp at hx

theorem addCandidate_some_cases (answer : String) (s : List String) (c : String) :
    addCandidate answer s (some c) = s ∨
    (addCandidate answer s (some c) = s ++ [jsTrim c] ∧ jsTrim c ≠ "" ∧
      jsToLower (jsTrim c) ≠ jsToLower (jsTrim answer) ∧ jsTrim c ∉ s) := by
  simp only [addCandidate]
  split_ifs with h1 h2 h3 h4
  · exact Or.inl rfl
  · exact Or.inl rfl
  · exact Or.inl rfl
  · exact Or.inl rfl
  · refine Or.inr ⟨rfl, h2, h3, ?_⟩
    intro hmem
    exact h4 (List.elem_iff.mpr hmem)

theorem addCandidate_length_le (answer : String) (s : List String) (c : Option String) :
    (addCandidate answer s c).length ≤ s.length + 1 := by
  cases c with
  | none => simp [addCandidate]
  | some c =>
    rcases addCandidate_some_cases answer s c with h | ⟨h, _⟩ <;> rw [h] <;> simp

theorem addCandidate_length_ge (answer : String) (s : List String) (c : Option String) :
    s.length ≤ (addCandidate answer s c).length := by
  cases c with
  | none => simp [addCandidate]
  | some c =>
    rcases addCandidate_some_cases answer s c with h | ⟨h, _⟩ <;> simp [h]

theorem addCandidate_mem (answer : String) (s : List String) (c : Option String)
    (x : String) (hx : x ∈ s) : x ∈ addCandidate answer s c := by
  cases c with
  | none => simpa [addCandidate] using hx
  | some c =>
    rcases addCandidate_some_cases answer s c with h | ⟨h, _⟩ <;> rw [h]
    · exact hx
    · exact List.mem_append_left _ hx

theorem addCandidate_inv (answer : String) (s : List String) (c : Option String)
    (h : DistractorInv answer s) : DistractorInv answer (addCandidate answer s c) := by
  cases c with
  | none => simpa [addCandidate] using h
  | some c =>
    rcases addCandidate_some_cases answer s c with heq | ⟨heq, hne, hkey, hnm⟩ <;> rw [heq]
    · exact h
    · obtain ⟨hnd, hall⟩ := h
      constructor
      · simp [List.nodup_append, hnd, hnm]
      · intro x hx
        rcases List.mem_append.mp hx with hxs | hxe
        · exact hall x hxs
        · have hxc : x = jsTrim c := by simpa using hxe
          subst hxc
          exact ⟨jsTrim_idem c, hkey⟩

theorem addCandidate_adds (answer : String) (s : List String) (c : String)
    (h1 : jsTrim c ≠ "") (h2 : jsToLower (jsTrim c) ≠ jsToLower (jsTrim answer)) :
    jsTrim c ∈ addCandidate answer s (some c) := by
  rcases addCandidate_some_cases answer s c with heq | ⟨heq, _⟩ <;> rw [heq]
  · have hc : c ≠ "" := by
      intro hc
      rw [hc] at h1
      exact h1 jsTrim_empty
    by_cases hmem : jsTrim c ∈ s
    · exact hmem
    · exfalso
      have : addCandidate answer s (some c) = s ++ [jsTrim c] := by
        simp only [addCandidate]
        rw [if_neg hc, if_neg h1, if_neg h2, if_neg (by simpa using hmem)]
      rw [heq] at this
      have hlen := congrArg List.length this
      simp at hlen
  · exact List.mem_append_right _ (by simp)

theorem foldl_fillStep_le (answer : String) :
    ∀ (L : List String) (s : List String),
      s.length ≤ desiredOptionCount - 1 →
      (L.foldl (fillStep answer) s).length ≤ desiredOptionCount - 1 := by
  intro L
  induction L with
  | nil => intro s h; exact h
  | cons c L ih =>
    intro s h
    rw [List.foldl_cons]
    refine ih _ ?_
    unfold fillStep
    by_cases hs : desiredOptionCount - 1 ≤ s.length
    · rw [if_pos hs]; exact h
    · rw [if_neg hs]
      have := addCandidate_length_le answer s (some c)
      omega

theorem foldl_fillStep_mem (answer : String) :
    ∀ (L : List String) (s : List String) (x : String),
      x ∈ s → x ∈ L.foldl (fillStep answer) s := by
  intro L
  induction L with
  | nil => intro s x h; exact h
  | cons c L ih =>
    intro s x h
    rw [List.foldl_cons]
    refine ih _ x ?_
    unfold fillStep
    by_cases hs : desiredOptionCount - 1 ≤ s.length
    · rw [if_pos hs]; exact h
    · rw [if_neg hs]; exact addCandidate_mem answer s (some c) x h

theorem foldl_fillStep_inv (answer : String) :
    ∀ (L : List String) (s : List String),
      DistractorInv answer s → DistractorInv answer (L.foldl (fillStep answer) s) := by
  intro L
  induction L with
  | nil => intro s h; exact h
  | cons c L ih =>
    intro s h
    rw [List.foldl_cons]
    refine ih _ ?_
    unfold fillStep
    by_cases hs : desiredOptionCount - 1 ≤ s.length
    · rw [if_pos hs]; exact h
    · rw [if_neg hs]; exact addCandidate_inv answer s (some c) h

theorem foldl_fillStep_ge (answer : String) :
    ∀ (L : List String) (s : List String),
      s.length ≤ (L.foldl (fillStep answer) s).length := by
  intro L
  induction L with
  | nil => intro s; exact Nat.le_refl _
  | cons c L ih =>
    intro s
    rw [List.foldl_cons]
    refine Nat.le_trans ?_ (ih _)
    unfold fillStep
    by_cases hs : desiredOptionCount - 1 ≤ s.length
    · rw [if_pos hs]
    · rw [if_neg hs]; exact addCandidate_length_ge answer s (some c)

theorem foldl_fillStep_covers (answer : String) :
    ∀ (L : List String) (s : List String) (c : String),
      c ∈ L → jsTrim c ≠ "" →
      jsToLower (jsTrim c) ≠ jsToLower (jsTrim answer) →
      desiredOptionCount - 1 ≤ (L.foldl (fillStep answer) s).length ∨
        jsTrim c ∈ L.foldl (fillStep answer) s := by
  intro L
  induction L with
  | nil => intro s c h; simp at h
  | cons d L ih =>
    intro s c hmem h1 h2
    rw [List.foldl_cons]
    rcases List.mem_cons.mp hmem with hcd | htail
    · subst hcd
      unfold fillStep
      by_cases hs : desiredOptionCount - 1 ≤ s.length
      · rw [if_pos hs]
        left
        exact Nat.le_trans hs (foldl_fillStep_ge answer L s)
      · rw [if_neg hs]
        right
        exact foldl_fillStep_mem answer L _ _ (addCandidate_adds answer s c h1 h2)
    · exact ih _ c htail h1 h2

theorem fillFromAnswers_le (answer : String) (g : RandSrc) (s pool : List String)
    (h : s.length ≤ desiredOptionCount - 1) :
    (fillFromAnswers answer g s pool).length ≤ desiredOptionCount - 1 := by
  unfold fillFromAnswers
  by_cases hp : pool.length = 0
  · rw [if_pos hp]; exact h
  · rw [if_neg hp]; exact foldl_fillStep_le answer _ s h

theorem fillFromAnswers_inv (answer : String) (g : RandSrc) (s pool : List String)
    (h : DistractorInv answer s) :
    DistractorInv answer (fillFromAnswers answer g s pool) := by
  unfold fillFromAnswers
  by_cases hp : pool.length = 0
  · rw [if_pos hp]; exact h
  · rw [if_neg hp]; exact foldl_fillStep_inv answer _ s h

theorem fillFromAnswers_covers (answer : String) (g : RandSrc) (s pool : List String)
    (c : String) (hmem : c ∈ pool) (h1 : jsTrim c ≠ "")
    (h2 : jsToLower (jsTrim c) ≠ jsToLower (jsTrim answer)) :
    desiredOptionCount - 1 ≤ (fillFromAnswers answer g s pool).length ∨
      jsTrim c ∈ fillFromAnswers answer g s pool := by
  unfold fillFromAnswers
  have hp : ¬ pool.length = 0 := by
    intro hp
    rw [List.length_eq_zero] at hp
    subst hp
    simp at hmem
  rw [if_neg hp]
  have hmem2 : c ∈ shuffleArray g pool :=
    ((shuffleArray_perm g pool).mem_iff).mpr hmem
  exact foldl_fillStep_covers answer _ s c hmem2 h1 h2

theorem distractorStep_eq (answer : String) :
    (fun (acc : List String) (item : String) =>
      if acc.length < desiredOptionCount - 1 then addCandidate answer acc (some item)
      else acc) = fillStep answer := by
  funext acc item
  unfold fillStep
  by_cases h : acc.length < desiredOptionCount - 1
  · rw [if_pos h, if_neg (by omega)]
  · rw [if_neg h, if_pos (by omega)]

theorem distractorPhase_le (answer : String) (g : RandSrc)
    (ds : Option (List String)) :
    (distractorPhase answer g ds).length ≤ desiredOptionCount - 1 := by
  cases ds with
  | none => simp [distractorPhase, desiredOptionCount]
  | some ds =>
    simp only [distractorPhase]
    split_ifs with hd
    · rw [distractorStep_eq]
      exact foldl_fillStep_le answer _ [] (by simp [desiredOptionCount])
    · simp [desiredOptionCount]

theorem distractorPhase_inv (answer : String) (g : RandSrc)
    (ds : Option (List String)) :
    DistractorInv answer (distractorPhase answer g ds) := by
  cases ds with
  | none => exact DistractorInv_nil answer
  | some ds =>
    simp only [distractorPhase]
    split_ifs with hd
    · rw [distractorStep_eq]
      exact foldl_fillStep_inv answer _ [] (DistractorInv_nil answer)
    · exact DistractorInv_nil answer

/-- The value of the distractor set when `buildOptions` reaches line 78:
the curated pass followed by the two conditional fills. -/
def optSet (r : OptRng) (source : FlashcardSource)
    (categoryPool globalPool : List FlashcardSource) : List String :=
  let s1 := distractorPhase source.answer r.dist source.distractors
  let categoryAnswers :=
    (categoryPool.filter (fun item => item.id != source.id)).map (fun item => item.answer)
  let globalAnswers :=
    (globalPool.filter (fun item => item.id != source.id)).map (fun item => item.answer)
  let s2 := if s1.length < desiredOptionCount - 1 then
      fillFromAnswers source.answer r.cat s1 categoryAnswers
    else s1
  if s2.length < desiredOptionCount - 1 then
    fillFromAnswers source.answer r.glob s2 globalAnswers
  else s2

theorem buildOptions_eq (r : OptRng) (source : FlashcardSource)
    (categoryPool globalPool : List FlashcardSource) :
    buildOptions r source categoryPool globalPool =
      (shuffleArray r.opts
        (source.answer :: (optSet r source categoryPool globalPool).take (desiredOptionCount - 1)),
       (jsFindIndex (fun o => o == source.answer)
         (shuffleArray r.opts
           (source.answer ::
             (optSet r source categoryPool globalPool).take (desiredOptionCount - 1)))).getD 0) :=
  rfl

theorem optSet_le (r : OptRng) (source : FlashcardSource)
    (categoryPool globalPool : List FlashcardSource) :
    (optSet r source categoryPool globalPool).length ≤ desiredOptionCount - 1 := by
  have h1 : (distractorPhase source.answer r.dist source.distractors).length ≤
      desiredOptionCount - 1 := distractorPhase_le _ _ _
  simp only [optSet]
  split_ifs with h2 h3
  · exact fillFromAnswers_le _ _ _ _ (fillFromAnswers_le _ _ _ _ h1)
  · exact fillFromAnswers_le _ _ _ _ h1
  · exact h1

theorem optSet_inv (r : OptRng) (source : FlashcardSource)
    (categoryPool globalPool : List FlashcardSource) :
    DistractorInv source.answer (optSet r source categoryPool globalPool) := by
  have h1 : DistractorInv source.answer
      (distractorPhase source.answer r.dist source.distractors) :=
    distractorPhase_inv _ _ _
  simp only [optSet]
  split_ifs with h2 h3
  · exact fillFromAnswers_inv _ _ _ _ (fillFromAnswers_inv _ _ _ _ h1)
  · exact fillFromAnswers_inv _ _ _ _ h1
  · exact h1

theorem three_mem_length {α : Type} [DecidableEq α] {l : List α} {a b c : α}
    (ha : a ∈ l) (hb : b ∈ l) (hc : c ∈ l)
    (hab : a ≠ b) (hac : a ≠ c) (hbc : b ≠ c) : 3 ≤ l.length := by
  have hsub : ({a, b, c} : Finset α) ⊆ l.toFinset := by
    intro x hx
    simp only [Finset.mem_insert, Finset.mem_singleton] at hx
    rcases hx with rfl | rfl | rfl <;> simpa using ‹_ ∈ l›
  have hcard : ({a, b, c} : Finset α).card = 3 := by
    rw [Finset.card_insert_of_not_mem (by simp [hab, hac]),
      Finset.card_insert_of_not_mem (by simp [hbc]), Finset.card_singleton]
  calc 3 = ({a, b, c} : Finset α).card := hcard.symm
    _ ≤ l.toFinset.card := Finset.card_le_card hsub
    _ ≤ l.length := l.toFinset_card_le

theorem optSet_covers (r : OptRng) (source : FlashcardSource)
    (categoryPool globalPool : List FlashcardSource) (a : FlashcardSource)
    (hmem : a ∈ globalPool) (hid : a.id ≠ source.id)
    (h1 : jsTrim a.answer ≠ "")
    (h2 : jsToLower (jsTrim a.answer) ≠ jsToLower (jsTrim source.answer)) :
    desiredOptionCount - 1 ≤ (optSet r source categoryPool globalPool).length ∨
      jsTrim a.answer ∈ optSet r source categoryPool globalPool := by
  have hmem2 : a.answer ∈
      (globalPool.filter (fun item => item.id != source.id)).map
        (fun item => item.answer) := by
    refine List.mem_map.mpr ⟨a, ?_, rfl⟩
    refine List.mem_filter.mpr ⟨hmem, ?_⟩
    simpa using hid
  simp only [optSet]
  split_ifs with hc1 hc2
  · exact fillFromAnswers_covers source.answer r.glob _ _ a.answer hmem2 h1 h2
  · left; omega
  · left; omega

/-- The hypothesis of claim C2 exactly as stated: the bank (global pool)
supplies at least three records other than the source whose answers are
pairwise distinct, and distinct from the source answer, under the
trim/case-fold rule. -/
def SuppliesThreeDistinct (source : FlashcardSource)
    (pool : List FlashcardSource) : Prop :=
  ∃ a b c : FlashcardSource, a ∈ pool ∧ b ∈ pool ∧ c ∈ pool ∧
    a.id ≠ source.id ∧ b.id ≠ source.id ∧ c.id ≠ source.id ∧
    ciKey a.answer ≠ ciKey b.answer ∧ ciKey a.answer ≠ ciKey c.answer ∧
    ciKey b.answer ≠ ciKey c.answer ∧
    ciKey a.answer ≠ ciKey source.answer ∧ ciKey b.answer ≠ ciKey source.answer ∧
    ciKey c.answer ≠ ciKey source.answer

/-- The hypothesis of C2 strengthened with the admission requirement that
each of the three answers is nonempty after trimming (whitespace-only
answers are skipped by `addCandidate` and can never fill the set). -/
def SuppliesThreeUsable (source : FlashcardSource)
    (pool : List FlashcardSource) : Prop :=
  ∃ a b c : FlashcardSource, a ∈ pool ∧ b ∈ pool ∧ c ∈ pool ∧
    a.id ≠ source.id ∧ b.id ≠ source.id ∧ c.id ≠ source.id ∧
    jsTrim a.answer ≠ "" ∧ jsTrim b.answer ≠ "" ∧ jsTrim c.answer ≠ "" ∧
    ciKey a.answer ≠ ciKey b.answer ∧ ciKey a.answer ≠ ciKey c.answer ∧
    ciKey b.answer ≠ ciKey c.answer ∧
    ciKey a.answer ≠ ciKey source.answer ∧ ciKey b.answer ≠ ciKey source.answer ∧
    ciKey c.answer ≠ ciKey source.answer

theorem optSet_three (r : OptRng) (source : FlashcardSource)
    (categoryPool globalPool : List FlashcardSource)
    (H : SuppliesThreeUsable source globalPool) :
    (optSet r source categoryPool globalPool).length = desiredOptionCount - 1 := by
  obtain ⟨a, b, c, hma, hmb, hmc, hia, hib, hic, hta, htb, htc,
    hab, hac, hbc, hka, hkb, hkc⟩ := H
  have hle := optSet_le r source categoryPool globalPool
  rcases optSet_covers r source categoryPool globalPool a hma hia hta hka with h | hina
  · omega
  rcases optSet_covers r source categoryPool globalPool b hmb hib htb hkb with h | hinb
  · omega
  rcases optSet_covers r source categoryPool globalPool c hmc hic htc hkc with h | hinc
  · omega
  have htab : jsTrim a.answer ≠ jsTrim b.answer := by
    intro h; exact hab (by unfold ciKey; rw [h])
  have htac : jsTrim a.answer ≠ jsTrim c.answer := by
    intro h; exact hac (by unfold ciKey; rw [h])
  have htbc : jsTrim b.answer ≠ jsTrim c.answer := by
    intro h; exact hbc (by unfold ciKey; rw [h])
  have h3 := three_mem_length hina hinb hinc htab htac htbc
  simp only [desiredOptionCount] at hle h3 ⊢
  omega

theorem optSet_take_eq (r : OptRng) (source : FlashcardSource)
    (categoryPool globalPool : List FlashcardSource) :
    (optSet r source categoryPool globalPool).take (desiredOptionCount - 1) =
      optSet r source categoryPool globalPool :=
  List.take_of_length_le (optSet_le r source categoryPool globalPool)

theorem buildOptions_perm (r : OptRng) (source : FlashcardSource)
    (categoryPool globalPool : List FlashcardSource) :
    List.Perm (buildOptions r source categoryPool globalPool).1
      (source.answer :: optSet r source categoryPool globalPool) := by
  rw [buildOptions_eq, optSet_take_eq]
  exact shuffleArray_perm _ _

theorem buildOptions_answer_mem (r : OptRng) (source : FlashcardSource)
    (categoryPool globalPool : List FlashcardSource) :
    source.answer ∈ (buildOptions r source categoryPool globalPool).1 :=
  ((buildOptions_perm r source categoryPool globalPool).mem_iff).mpr (by simp)

theorem buildOptions_answerIndex (r : OptRng) (source : FlashcardSource)
    (categoryPool globalPool : List FlashcardSource) :
    (buildOptions r source categoryPool globalPool).1[
      (buildOptions r source categoryPool globalPool).2]? = some source.answer := by
  obtain ⟨i, hfind, hget⟩ :=
    jsFindIndex_self source.answer (buildOptions r source categoryPool globalPool).1
      (buildOptions_answer_mem r source categoryPool globalPool)
  have h2 : (buildOptions r source categoryPool globalPool).2 = i := by
    rw [buildOptions_eq] at hfind ⊢
    simp only at hfind ⊢
    rw [hfind]
    rfl
  rw [h2]
  exact hget

theorem buildOptions_nodup (r : OptRng) (source : FlashcardSource)
    (categoryPool globalPool : List FlashcardSource) :
    (buildOptions r source categoryPool globalPool).1.Nodup := by
  refine ((buildOptions_perm r source categoryPool globalPool).nodup_iff).mpr ?_
  obtain ⟨hnd, hall⟩ := optSet_inv r source categoryPool globalPool
  refine List.nodup_cons.mpr ⟨?_, hnd⟩
  intro hmem
  obtain ⟨htr, hkey⟩ := hall source.answer hmem
  rw [htr] at hkey
  exact hkey rfl

theorem buildOptions_count_answer (r : OptRng) (source : FlashcardSource)
    (categoryPool globalPool : List FlashcardSource) :
    (buildOptions r source categoryPool globalPool).1.countP
      (fun o => ciKey o == ciKey source.answer) = 1 := by
  rw [(buildOptions_perm r source categoryPool globalPool).countP_eq]
  rw [List.countP_cons]
  have hzero : (optSet r source categoryPool globalPool).countP
      (fun o => ciKey o == ciKey source.answer) = 0 := by
    rw [List.countP_eq_zero]
    intro x hx
    obtain ⟨htr, hkey⟩ := (optSet_inv r source categoryPool globalPool).2 x hx
    have : ciKey x ≠ ciKey source.answer := by
      unfold ciKey
      rw [htr]
      exact hkey
    simpa using this
  rw [hzero]
  simp

theorem buildOptions_length_bounds (r : OptRng) (source : FlashcardSource)
    (categoryPool globalPool : List FlashcardSource) :
    1 ≤ (buildOptions r source categoryPool globalPool).1.length ∧
      (buildOptions r source categoryPool globalPool).1.length ≤ desiredOptionCount := by
  have hperm := (buildOptions_perm r source categoryPool globalPool).length_eq
  have hle := optSet_le r source categoryPool globalPool
  rw [hperm]
  simp only [List.length_cons, desiredOptionCount] at hle ⊢
  omega

theorem buildOptions_length_four (r : OptRng) (source : FlashcardSource)
    (categoryPool globalPool : List FlashcardSource)
    (H : SuppliesThreeUsable source globalPool) :
    (buildOptions r source categoryPool globalPool).1.length = desiredOptionCount := by
  have hperm := (buildOptions_perm r source categoryPool globalPool).length_eq
  have h3 := optSet_three r source categoryPool globalPool H
  rw [hperm]
  simp only [List.length_cons, desiredOptionCount] at h3 ⊢
  omega

theorem buildCards_map_id (r : DeckRng) (globalPool : List FlashcardSource) :
    ∀ (i : Nat) (srcs : List FlashcardSource),
      (buildCards r globalPool i srcs).map (fun q => q.id) =
        srcs.map (fun s => s.id) := by
  intro i srcs
  induction srcs generalizing i with
  | nil => rfl
  | cons src rest ih =>
    simp only [buildCards, List.map_cons, mkCard]
    exact congrArg _ (ih (i + 1))

theorem buildDeck_nil (r : DeckRng) (globalPool : List FlashcardSource) :
    buildDeck r [] globalPool = [] := by
  simp [buildDeck]

theorem buildDeck_ids_perm (r : DeckRng)
    (sources globalPool : List FlashcardSource) :
    List.Perm ((buildDeck r sources globalPool).map (fun q => q.id))
      (sources.map (fun s => s.id)) := by
  unfold buildDeck
  by_cases h : sources.length = 0
  · rw [if_pos h]
    rw [List.length_eq_zero] at h
    subst h
    exact List.Perm.refl _
  · rw [if_neg h]
    have hperm := (shuffleArray_perm r.deck (buildCards r globalPool 0 sources)).map
      (fun q => q.id)
    rw [buildCards_map_id] at hperm
    exact hperm

theorem buildDeck_length (r : DeckRng) (sources globalPool : List FlashcardSource) :
    (buildDeck r sources globalPool).length = sources.length := by
  have h := (buildDeck_ids_perm r sources globalPool).length_eq
  simpa using h

theorem buildDeck_mem_id (r : DeckRng) (sources globalPool : List FlashcardSource)
    (q : PermitQuestion) (hq : q ∈ buildDeck r sources globalPool) :
    q.id ∈ sources.map (fun s => s.id) := by
  have hmem : q.id ∈ (buildDeck r sources globalPool).map (fun q => q.id) :=
    List.mem_map.mpr ⟨q, hq, rfl⟩
  exact ((buildDeck_ids_perm r sources globalPool).mem_iff).mp hmem

/-- The two modes of the app (App.tsx line 130). -/
inductive Mode
  | study
  | practiceTest
deriving DecidableEq

/-- The session state held by the `App` component (App.tsx lines 129–152):
`activeCategory = none` models the `'all'` filter value. -/
structure Session where
  mode : Mode
  activeCategory : Option String
  deck : List PermitQuestion
  currentIndex : Nat
  selectedOption : Option Nat
  correctCount : Nat
  showSummary : Bool
deriving DecidableEq

/-- `filteredSources` (App.tsx lines 143–146). -/
def filteredSources (bank : List FlashcardSource) (cat : Option String) :
    List FlashcardSource :=
  match cat with
  | none => bank
  | some c => bank.filter (fun item => item.category == c)

/-- `PRACTICE_TEST_SIZE` (App.tsx line 20). -/
def PRACTICE_TEST_SIZE : Nat := 50

/-- `handleOptionClick` (App.tsx lines 185–191).  The out-of-range read of
`deck[currentIndex]` cannot occur in the rendered app (the empty-deck
screen at line 261 has no option buttons); the model leaves the score
unchanged there. -/
def handleOptionClick (optionIndex : Nat) (s : Session) : Session :=
  match s.selectedOption with
  | some _ => s
  | none =>
    let s1 := { s with selectedOption := some optionIndex }
    match s.deck[s.currentIndex]? with
    | some q =>
      if s.mode = Mode.practiceTest ∧ optionIndex = q.answerIndex then
        { s1 with correctCount := s.correctCount + 1 }
      else s1
    | none => s1

/-- `handleNext` (App.tsx lines 193–209). -/
def handleNext (r : DeckRng) (bank : List FlashcardSource) (s : Session) : Session :=
  if s.currentIndex + 1 < s.deck.length then
    { s with currentIndex := s.currentIndex + 1, selectedOption := none }
  else if s.mode = Mode.practiceTest then
    { s with showSummary := true }
  else
    { s with
      deck := buildDeck r (filteredSources bank s.activeCategory) bank
      currentIndex := 0
      selectedOption := none }

/-- `startPracticeTest` (App.tsx lines 230–238); also invoked by the
"Retake Practice Test" buttons and by `handleRestart` in practice mode. -/
def startPracticeTest (sample : RandSrc) (r : DeckRng)
    (allSources : List FlashcardSource) (s : Session) : Session :=
  let sampleSources :=
    (shuffleArray sample allSources).take (min PRACTICE_TEST_SIZE allSources.length)
  { s with
    mode := Mode.practiceTest
    showSummary := false
    correctCount := 0
    deck := buildDeck r sampleSources allSources
    currentIndex := 0
    selectedOption := none }

/-- `Math.round`, on exact rationals: round half away from zero is
`floor (q + 1/2)` for the nonnegative values that occur here. -/
def jsRound (q : ℚ) : ℤ :=
  ⌊q + 1 / 2⌋

/-- What the practice-test summary screen shows (App.tsx lines 296–299 and
339–351): `totalQuestions = deck.length || 1`, the rounded percentage, the
pass flag (`scorePercent >= 80`), and the correct/incorrect/total counts. -/
structure SummaryView where
  passed : Bool
  scorePercent : ℤ
  correct : Nat
  incorrect : ℤ
  total : Nat
deriving DecidableEq

def summaryView (s : Session) : SummaryView :=
  let totalQuestions : Nat := if s.deck.length = 0 then 1 else s.deck.length
  let scorePercent : ℤ :=
    jsRound ((s.correctCount : ℚ) / (totalQuestions : ℚ) * 100)
  { passed := decide (80 ≤ scorePercent)
    scorePercent := scorePercent
    correct := s.correctCount
    incorrect := (totalQuestions : ℤ) - (s.correctCount : ℤ)
    total := totalQuestions }

/-- Answer card `i` with option `pick i` and advance, `n` times: the click
sequence of one complete practice test. -/
def runTest (r : DeckRng) (bank : List FlashcardSource) (pick : Nat → Nat)
    (s : Session) : Nat → Session
  | 0 => s
  | n + 1 => runTest r bank pick (handleNext r bank (handleOptionClick (pick s.currentIndex) s)) n

/-- How many of the first `t` cards the choice function answers correctly. -/
def correctOnFirst (pick : Nat → Nat) (d : List PermitQuestion) (t : Nat) : Nat :=
  (List.range t).countP (fun i =>
    match d[i]? with
    | some q => pick i == q.answerIndex
    | none => false)

/-- The two theme values (App.tsx line 5). -/
inductive Theme
  | light
  | dark
deriving DecidableEq

/-- Outcome of `window.localStorage.getItem('pt-theme')`: a present value,
an absent key (`null`), or a thrown storage-access error. -/
inductive StorageRead
  | ok (v : Option String)
  | err
deriving DecidableEq

/-- The browser environment consulted by `getPreferredTheme`:
`hasWindow` models `typeof window !== 'undefined'`; `matchMedia = none`
models `window.matchMedia` being unavailable, `some b` a query whose
`matches` is `b`. -/
structure ThemeEnv where
  hasWindow : Bool
  storage : StorageRead
  matchMedia : Option Bool
deriving DecidableEq

/-- The fall-through of `getPreferredTheme` after the stored value is
rejected (App.tsx lines 121–123). -/
def systemFallback (env : ThemeEnv) : Theme :=
  match env.matchMedia with
  | some true => Theme.dark
  | _ => Theme.light

/-- `getPreferredTheme` (App.tsx lines 109–124).  The `catch` at line 117
swallows the storage error and falls through to the media query. -/
def getPreferredTheme (env : ThemeEnv) : Theme :=
  if env.hasWindow = false then Theme.light
  else
    match env.storage with
    | StorageRead.ok (some s) =>
      if s = "light" then Theme.light
      else if s = "dark" then Theme.dark
      else systemFallback env
    | StorageRead.ok none => systemFallback env
    | StorageRead.err => systemFallback env

/-- The stored preference, read as one of the two enumerated values.
Stated from the spec's words for the refinement comparison. -/
def storedTheme (env : ThemeEnv) : Option Theme :=
  match env.storage with
  | StorageRead.ok (some "light") => some Theme.light
  | StorageRead.ok (some "dark") => some Theme.dark
  | _ => none

/-- The claimed startup rule, from the spec's words: the stored preference
when it is one of the two enumerated values, otherwise the system
dark/light signal, otherwise the hardcoded light default. -/
def claimedPreferredTheme (env : ThemeEnv) : Theme :=
  (storedTheme env).getD
    (match env.matchMedia with
     | some b => if b then Theme.dark else Theme.light
     | none => Theme.light)

/-- The string written back by the theme effect (App.tsx line 162). -/
def themeString : Theme → String
  | Theme.light => "light"
  | Theme.dark => "dark"

/-- The persistence effect (App.tsx lines 161–165): on success the stored
value becomes the current theme; a thrown write error is swallowed by the
`catch` and the environment is left as it was — no error escapes. -/
def persistTheme (writeFails : Bool) (env : ThemeEnv) (t : Theme) : ThemeEnv :=
  if writeFails then env
  else { env with storage := StorageRead.ok (some (themeString t)) }

/-- The session at the start of card `t` of a practice test. -/
def stAt (ac : Option String) (d : List PermitQuestion) (pick : Nat → Nat)
    (t : Nat) : Session :=
  { mode := Mode.practiceTest
    activeCategory := ac
    deck := d
    currentIndex := t
    selectedOption := none
    correctCount := correctOnFirst pick d t
    showSummary := false }

theorem correctOnFirst_zero (pick : Nat → Nat) (d : List PermitQuestion) :
    correctOnFirst pick d 0 = 0 := rfl

theorem correctOnFirst_succ (pick : Nat → Nat) (d : List PermitQuestion) (t : Nat) :
    correctOnFirst pick d (t + 1) = correctOnFirst pick d t +
      (if (match d[t]? with
           | some q => pick t == q.answerIndex
           | none => false) = true then 1 else 0) := by
  unfold correctOnFirst
  rw [List.range_succ, List.countP_append]
  congr 1
  simp [List.countP_cons]

theorem handleOptionClick_stAt (ac : Option String) (d : List PermitQuestion)
    (pick : Nat → Nat) (t : Nat) (ht : t < d.length) :
    handleOptionClick (pick t) (stAt ac d pick t) =
      { mode := Mode.practiceTest
        activeCategory := ac
        deck := d
        currentIndex := t
        selectedOption := some (pick t)
        correctCount := correctOnFirst pick d (t + 1)
        showSummary := false } := by
  have hget : d[t]? = some d[t] := List.getElem?_eq_getElem ht
  simp only [handleOptionClick, stAt]
  rw [hget]
  rw [correctOnFirst_succ]
  rw [hget]
  by_cases hc : pick t = d[t].answerIndex
  · simp [hc]
  · simp [hc]

theorem runTest_final (r : DeckRng) (bank : List FlashcardSource)
    (ac : Option String) (d : List PermitQuestion) (pick : Nat → Nat) :
    ∀ (k t : Nat), 1 ≤ k → t + k = d.length →
      runTest r bank pick (stAt ac d pick t) k =
        { mode := Mode.practiceTest
          activeCategory := ac
          deck := d
          currentIndex := d.length - 1
          selectedOption := some (pick (d.length - 1))
          correctCount := correctOnFirst pick d d.length
          showSummary := true } := by
  intro k
  induction k with
  | zero => intro t h1; omega
  | succ k ih =>
    intro t h1 h2
    have ht : t < d.length := by omega
    show runTest r bank pick
      (handleNext r bank (handleOptionClick (pick (stAt ac d pick t).currentIndex)
        (stAt ac d pick t))) k = _
    have hcur : (stAt ac d pick t).currentIndex = t := rfl
    rw [hcur, handleOptionClick_stAt ac d pick t ht]
    by_cases hmore : t + 1 < d.length
    · have hnext : handleNext r bank
          { mode := Mode.practiceTest
            activeCategory := ac
            deck := d
            currentIndex := t
            selectedOption := some (pick t)
            correctCount := correctOnFirst pick d (t + 1)
            showSummary := false } = stAt ac d pick (t + 1) := by
        unfold handleNext
        rw [if_pos hmore]
        simp [stAt]
      rw [hnext]
      have hk : 1 ≤ k := by omega
      exact ih (t + 1) hk (by omega)
    · have hk : k = 0 := by omega
      subst hk
      have hlen : t + 1 = d.length := by omega
      have htl : t = d.length - 1 := by omega
      have hnext : handleNext r bank
          { mode := Mode.practiceTest
            activeCategory := ac
            deck := d
            currentIndex := t
            selectedOption := some (pick t)
            correctCount := correctOnFirst pick d (t + 1)
            showSummary := false } =
          { mode := Mode.practiceTest
            activeCategory := ac
            deck := d
            currentIndex := d.length - 1
            selectedOption := some (pick (d.length - 1))
            correctCount := correctOnFirst pick d d.length
            showSummary := true } := by
        unfold handleNext
        rw [if_neg hmore, if_pos rfl]
        rw [← htl, ← hlen]
      rw [hnext]
      rfl

/-- Concrete zero random streams, realisable by actual `Math.random()`
draws, used for the concrete instances below. -/
def zeroRng : OptRng := ⟨fun _ => 0, fun _ => 0, fun _ => 0, fun _ => 0⟩

/-- A source whose curated distractor list contains two strings that
differ only by case. -/
def ex1Src : FlashcardSource :=
  { id := "sign-1", prompt := "p", answer := "Yield",
    distractors := some ["Stop", "STOP"], reference := "r",
    category := "Signs", imageUrl := none }

/-- C1, counterexample: the option list produced by `buildOptions` for
`ex1Src` (with the zero random streams) is `["STOP", "Stop", "Yield"]`,
which has a duplicate under case-insensitive trimmed comparison — the JS
`Set` deduplicates the trimmed strings only under exact equality. -/
theorem claim_C1_counterexample :
    ¬ (((buildOptions zeroRng ex1Src [] []).1.map ciKey).Nodup) := by decide

/-- C1 (amended): for every `DeckCard` produced by `buildOptions` (hence
`buildDeck`), the option list contains no duplicate strings under exact
comparison (not case-insensitive), exactly one option equals the source
answer under case-insensitive trim-equality, and `answerIndex` points at
that option. -/
theorem claim_C1_options_invariant (r : OptRng) (source : FlashcardSource)
    (categoryPool globalPool : List FlashcardSource) :
    (buildOptions r source categoryPool globalPool).1.Nodup ∧
    (buildOptions r source categoryPool globalPool).1.countP
      (fun o => ciKey o == ciKey source.answer) = 1 ∧
    (buildOptions r source categoryPool globalPool).1[
      (buildOptions r source categoryPool globalPool).2]? = some source.answer :=
  ⟨buildOptions_nodup r source categoryPool globalPool,
   buildOptions_count_answer r source categoryPool globalPool,
   buildOptions_answerIndex r source categoryPool globalPool⟩

def exB : FlashcardSource := ⟨"B", "p", "Merge", none, "r", "Signs", none⟩

def exC : FlashcardSource := ⟨"C", "p", "Speed Limit", none, "r", "Signs", none⟩

def exD : FlashcardSource := ⟨"D", "p", "One Way", none, "r", "Signs", none⟩

/-- C2, counterexample: the bank `[exB, exC, exD]` supplies three other
distinct answers for `ex1Src` in the claim's sense, yet `buildOptions`
returns `["STOP", "Stop", "Speed Limit", "Yield"]` — four options that are
not case-insensitively distinct, because the curated distractors `"Stop"`
and `"STOP"` are only deduplicated under exact equality. -/
theorem claim_C2_counterexample :
    SuppliesThreeDistinct ex1Src [exB, exC, exD] ∧
    ¬ (((buildOptions zeroRng ex1Src [] [exB, exC, exD]).1.map ciKey).Nodup) := by
  constructor
  · refine ⟨exB, exC, exD, ?_, ?_, ?_, ?_, ?_, ?_, ?_, ?_, ?_, ?_, ?_, ?_⟩ <;> decide
  · decide

/-- C2 (amended): if the global pool supplies at least three records other
than the source whose answers are nonempty after trimming and pairwise
distinct — and distinct from the source answer — under the trim/case-fold
rule, then `buildOptions` returns exactly 4 pairwise distinct (under exact
comparison) option strings, one of which equals the source answer, and
`answerIndex` points to it.  (Case-insensitive distinctness of the output
fails in general, see the counterexample; and whitespace-only answers are
never admitted, hence the nonempty-trim requirement.) -/
theorem claim_C2_four_options (r : OptRng) (source : FlashcardSource)
    (categoryPool globalPool : List FlashcardSource)
    (H : SuppliesThreeUsable source globalPool) :
    (buildOptions r source categoryPool globalPool).1.length = 4 ∧
    (buildOptions r source categoryPool globalPool).1.Nodup ∧
    source.answer ∈ (buildOptions r source categoryPool globalPool).1 ∧
    (buildOptions r source categoryPool globalPool).1[
      (buildOptions r source categoryPool globalPool).2]? = some source.answer := by
  refine ⟨?_, buildOptions_nodup r source categoryPool globalPool,
    buildOptions_answer_mem r source categoryPool globalPool,
    buildOptions_answerIndex r source categoryPool globalPool⟩
  have h := buildOptions_length_four r source categoryPool globalPool H
  simpa [desiredOptionCount] using h

def exA : FlashcardSource := ⟨"A", "p", "Yield", none, "r", "Signs", none⟩

/-- C2, witness: the spec's own example bank — records A/B/C/D with
answers Yield/Merge/Speed Limit/One Way — satisfies the hypothesis, and
the conclusion holds at it. -/
theorem claim_C2_four_options_witness :
    SuppliesThreeUsable exA [exA, exB, exC, exD] ∧
    ((buildOptions zeroRng exA [] [exA, exB, exC, exD]).1.length = 4 ∧
     (buildOptions zeroRng exA [] [exA, exB, exC, exD]).1.Nodup ∧
     exA.answer ∈ (buildOptions zeroRng exA [] [exA, exB, exC, exD]).1 ∧
     (buildOptions zeroRng exA [] [exA, exB, exC, exD]).1[
       (buildOptions zeroRng exA [] [exA, exB, exC, exD]).2]? = some exA.answer) := by
  have hH : SuppliesThreeUsable exA [exA, exB, exC, exD] := by
    refine ⟨exB, exC, exD, ?_, ?_, ?_, ?_, ?_, ?_, ?_, ?_, ?_, ?_, ?_, ?_, ?_, ?_, ?_⟩ <;>
      decide
  exact ⟨hH, claim_C2_four_options zeroRng exA [] [exA, exB, exC, exD] hH⟩

/-- C3: for every source list and global pool, `buildDeck` returns a deck
of the same length whose multiset of card identifiers equals the multiset
of source identifiers; an empty source list yields an empty deck. -/
theorem claim_C3_deck_shape (r : DeckRng) (sources globalPool : List FlashcardSource) :
    buildDeck r [] globalPool = [] ∧
    (buildDeck r sources globalPool).length = sources.length ∧
    List.Perm ((buildDeck r sources globalPool).map (fun q => q.id))
      (sources.map (fun s => s.id)) :=
  ⟨buildDeck_nil r globalPool,
   buildDeck_length r sources globalPool,
   buildDeck_ids_perm r sources globalPool⟩

/-- C4: `buildOptions` is total on every input: the option list has
between 1 and 4 entries, contains the correct answer, and `answerIndex` is
a valid index referencing the correct answer's position. -/
theorem claim_C4_options_total (r : OptRng) (source : FlashcardSource)
    (categoryPool globalPool : List FlashcardSource) :
    1 ≤ (buildOptions r source categoryPool globalPool).1.length ∧
    (buildOptions r source categoryPool globalPool).1.length ≤ 4 ∧
    source.answer ∈ (buildOptions r source categoryPool globalPool).1 ∧
    (buildOptions r source categoryPool globalPool).1[
      (buildOptions r source categoryPool globalPool).2]? = some source.answer := by
  obtain ⟨h1, h2⟩ := buildOptions_length_bounds r source categoryPool globalPool
  exact ⟨h1, by simpa [desiredOptionCount] using h2,
    buildOptions_answer_mem r source categoryPool globalPool,
    buildOptions_answerIndex r source categoryPool globalPool⟩

/-- C5: starting (or retaking) a practice test samples
`min (PRACTICE_TEST_SIZE = 50) (bank size)` records from the entire bank,
builds the deck from them, resets score/position/selection, and is
entirely independent of the active category filter. -/
theorem claim_C5_start_practice (sample : RandSrc) (r : DeckRng)
    (bank : List FlashcardSource) (s : Session) :
    (startPracticeTest sample r bank s).mode = Mode.practiceTest ∧
    (startPracticeTest sample r bank s).correctCount = 0 ∧
    (startPracticeTest sample r bank s).currentIndex = 0 ∧
    (startPracticeTest sample r bank s).selectedOption = none ∧
    (startPracticeTest sample r bank s).showSummary = false ∧
    (startPracticeTest sample r bank s).deck.length = min 50 bank.length ∧
    (∀ q ∈ (startPracticeTest sample r bank s).deck,
      q.id ∈ bank.map (fun b => b.id)) ∧
    (∀ c, startPracticeTest sample r bank { s with activeCategory := c } =
      { startPracticeTest sample r bank s with activeCategory := c }) := by
  refine ⟨rfl, rfl, rfl, rfl, rfl, ?_, ?_, ?_⟩
  · show (buildDeck r
      ((shuffleArray sample bank).take (min PRACTICE_TEST_SIZE bank.length)) bank).length = _
    rw [buildDeck_length, List.length_take]
    rw [(shuffleArray_perm sample bank).length_eq]
    simp only [PRACTICE_TEST_SIZE]
    omega
  · intro q hq
    have h1 : q.id ∈
        ((shuffleArray sample bank).take (min PRACTICE_TEST_SIZE bank.length)).map
          (fun b => b.id) :=
      buildDeck_mem_id r _ bank q hq
    obtain ⟨src, hsrc, hid⟩ := List.mem_map.mp h1
    have h2 : src ∈ shuffleArray sample bank := List.take_subset _ _ hsrc
    have h3 : src ∈ bank := ((shuffleArray_perm sample bank).mem_iff).mp h2
    exact List.mem_map.mpr ⟨src, h3, hid⟩
  · intro c
    cases s
    rfl

/-- Running one full practice test from its initial state: a deck `d`, the
cursor on card 1, no selection, score 0, summary hidden. -/
def practiceRun (r : DeckRng) (bank : List FlashcardSource) (ac : Option String)
    (d : List PermitQuestion) (pick : Nat → Nat) : Session :=
  runTest r bank pick
    { mode := Mode.practiceTest
      activeCategory := ac
      deck := d
      currentIndex := 0
      selectedOption := none
      correctCount := 0
      showSummary := false } d.length

/-- C6: answering every card of a nonempty practice deck — correctly on
exactly `K` of them — reaches the summary, whose pass flag is true exactly
when `round (100 * K / N) ≥ 80`, and which displays correct count `K`,
incorrect count `N - K`, and total `N`. -/
theorem claim_C6_summary (r : DeckRng) (bank : List FlashcardSource)
    (ac : Option String) (d : List PermitQuestion) (pick : Nat → Nat) (K : Nat)
    (hN : 0 < d.length) (hK : K = correctOnFirst pick d d.length) :
    (practiceRun r bank ac d pick).showSummary = true ∧
    (practiceRun r bank ac d pick).correctCount = K ∧
    ((summaryView (practiceRun r bank ac d pick)).passed = true ↔
      80 ≤ jsRound (100 * (K : ℚ) / (d.length : ℚ))) ∧
    (summaryView (practiceRun r bank ac d pick)).correct = K ∧
    (summaryView (practiceRun r bank ac d pick)).incorrect =
      (d.length : ℤ) - (K : ℤ) ∧
    (summaryView (practiceRun r bank ac d pick)).total = d.length := by
  have hfin : practiceRun r bank ac d pick =
      { mode := Mode.practiceTest
        activeCategory := ac
        deck := d
        currentIndex := d.length - 1
        selectedOption := some (pick (d.length - 1))
        correctCount := correctOnFirst pick d d.length
        showSummary := true } := by
    unfold practiceRun
    have h0 : (⟨Mode.practiceTest, ac, d, 0, none, 0, false⟩ : Session) =
        stAt ac d pick 0 := rfl
    rw [h0]
    exact runTest_final r bank ac d pick d.length 0 (by omega) (by omega)
  rw [hfin, ← hK]
  have hne : ¬ d.length = 0 := by omega
  have hsv : summaryView
      { mode := Mode.practiceTest
        activeCategory := ac
        deck := d
        currentIndex := d.length - 1
        selectedOption := some (pick (d.length - 1))
        correctCount := K
        showSummary := true } =
      { passed := decide (80 ≤ jsRound ((K : ℚ) / (d.length : ℚ) * 100))
        scorePercent := jsRound ((K : ℚ) / (d.length : ℚ) * 100)
        correct := K
        incorrect := (d.length : ℤ) - (K : ℤ)
        total := d.length } := by
    unfold summaryView
    simp only [if_neg hne]
  rw [hsv]
  have hq : (K : ℚ) / (d.length : ℚ) * 100 = 100 * (K : ℚ) / (d.length : ℚ) := by
    ring
  refine ⟨rfl, rfl, ?_, rfl, rfl, rfl⟩
  rw [hq]
  exact decide_eq_true_iff

def w6deck : List PermitQuestion :=
  [⟨"1", "p", ["a", "b"], 1, "b", "r", "c", none⟩,
   ⟨"2", "p", ["c", "d"], 0, "c", "r", "c", none⟩]

def w6pick : Nat → Nat := fun _ => 1

def wDeckRng : DeckRng := ⟨fun _ => zeroRng, fun _ => 0⟩

/-- C6, witness: a concrete 2-card run answering the first card correctly
and the second incorrectly. -/
theorem claim_C6_summary_witness :
    0 < w6deck.length ∧
    (1 : Nat) = correctOnFirst w6pick w6deck w6deck.length ∧
    (practiceRun wDeckRng [] none w6deck w6pick).showSummary = true ∧
    (practiceRun wDeckRng [] none w6deck w6pick).correctCount = 1 ∧
    ((summaryView (practiceRun wDeckRng [] none w6deck w6pick)).passed = true ↔
      80 ≤ jsRound (100 * ((1 : Nat) : ℚ) / (w6deck.length : ℚ))) ∧
    (summaryView (practiceRun wDeckRng [] none w6deck w6pick)).correct = 1 ∧
    (summaryView (practiceRun wDeckRng [] none w6deck w6pick)).incorrect =
      (w6deck.length : ℤ) - ((1 : Nat) : ℤ) ∧
    (summaryView (practiceRun wDeckRng [] none w6deck w6pick)).total = w6deck.length := by
  have h1 : 0 < w6deck.length := by decide
  have h2 : (1 : Nat) = correctOnFirst w6pick w6deck w6deck.length := by decide
  have h := claim_C6_summary wDeckRng [] none w6deck w6pick 1 h1 h2
  exact ⟨h1, h2, h.1, h.2.1, h.2.2.1, h.2.2.2.1, h.2.2.2.2.1, h.2.2.2.2.2⟩

/-- C7: while a card is unanswered, clicking option `i` records the
selection, increments the score exactly when the mode is practice-test and
`i` is the card's answer index, changes nothing else, and makes every
further click on the card a no-op — each card is answered exactly once. -/
theorem claim_C7_select_option (s : Session) (i j : Nat) (q : PermitQuestion)
    (h1 : s.selectedOption = none) (h2 : s.deck[s.currentIndex]? = some q) :
    (handleOptionClick i s).selectedOption = some i ∧
    (handleOptionClick i s).correctCount = s.correctCount +
      (if s.mode = Mode.practiceTest ∧ i = q.answerIndex then 1 else 0) ∧
    (handleOptionClick i s).deck = s.deck ∧
    (handleOptionClick i s).currentIndex = s.currentIndex ∧
    (handleOptionClick i s).mode = s.mode ∧
    handleOptionClick j (handleOptionClick i s) = handleOptionClick i s := by
  by_cases hc : s.mode = Mode.practiceTest ∧ i = q.answerIndex
  · have hred : handleOptionClick i s =
        { s with selectedOption := some i, correctCount := s.correctCount + 1 } := by
      simp only [handleOptionClick, h1, h2, if_pos hc]
    rw [hred]
    refine ⟨rfl, ?_, rfl, rfl, rfl, ?_⟩
    · rw [if_pos hc]
    · simp only [handleOptionClick]
  · have hred : handleOptionClick i s = { s with selectedOption := some i } := by
      simp only [handleOptionClick, h1, h2, if_neg hc]
    rw [hred]
    refine ⟨rfl, ?_, rfl, rfl, rfl, ?_⟩
    · rw [if_neg hc]
      rfl
    · simp only [handleOptionClick]


def w7s : Session :=
  ⟨Mode.practiceTest, none, [⟨"1", "p", ["a", "b"], 1, "b", "r", "c", none⟩],
   0, none, 0, false⟩

def w7q : PermitQuestion := ⟨"1", "p", ["a", "b"], 1, "b", "r", "c", none⟩

/-- C7, witness: clicking the correct option of the single card of a
concrete practice-test session. -/
theorem claim_C7_select_option_witness :
    (handleOptionClick 1 w7s).selectedOption = some 1 ∧
    (handleOptionClick 1 w7s).correctCount = w7s.correctCount +
      (if w7s.mode = Mode.practiceTest ∧ 1 = w7q.answerIndex then 1 else 0) ∧
    (handleOptionClick 1 w7s).deck = w7s.deck ∧
    (handleOptionClick 1 w7s).currentIndex = w7s.currentIndex ∧
    (handleOptionClick 1 w7s).mode = w7s.mode ∧
    handleOptionClick 0 (handleOptionClick 1 w7s) = handleOptionClick 1 w7s :=
  claim_C7_select_option w7s 1 0 w7q rfl rfl

/-- C8: advancing after a reveal moves to the next card with the selection
cleared while cards remain; an exhausted deck in study mode is rebuilt
from the current filter with the cursor back on card 1 and selection
cleared; an exhausted deck in practice-test mode shows the summary and
rebuilds nothing. -/
theorem claim_C8_advance (r : DeckRng) (bank : List FlashcardSource) (s : Session) :
    (s.currentIndex + 1 < s.deck.length →
      (handleNext r bank s).currentIndex = s.currentIndex + 1 ∧
      (handleNext r bank s).selectedOption = none ∧
      (handleNext r bank s).deck = s.deck ∧
      (handleNext r bank s).showSummary = s.showSummary) ∧
    (¬ s.currentIndex + 1 < s.deck.length → s.mode = Mode.study →
      (handleNext r bank s).currentIndex = 0 ∧
      (handleNext r bank s).selectedOption = none ∧
      (handleNext r bank s).deck.length =
        (filteredSources bank s.activeCategory).length ∧
      List.Perm ((handleNext r bank s).deck.map (fun q => q.id))
        ((filteredSources bank s.activeCategory).map (fun f => f.id)) ∧
      (handleNext r bank s).showSummary = s.showSummary) ∧
    (¬ s.currentIndex + 1 < s.deck.length → s.mode = Mode.practiceTest →
      (handleNext r bank s).showSummary = true ∧
      (handleNext r bank s).deck = s.deck ∧
      (handleNext r bank s).currentIndex = s.currentIndex ∧
      (handleNext r bank s).selectedOption = s.selectedOption ∧
      (handleNext r bank s).correctCount = s.correctCount) := by
  refine ⟨?_, ?_, ?_⟩
  · intro h
    unfold handleNext
    rw [if_pos h]
    exact ⟨rfl, rfl, rfl, rfl⟩
  · intro h hm
    have hm2 : ¬ s.mode = Mode.practiceTest := by
      rw [hm]
      intro hx
      exact Mode.noConfusion hx
    unfold handleNext
    rw [if_neg h, if_neg hm2]
    exact ⟨rfl, rfl, buildDeck_length r _ bank, buildDeck_ids_perm r _ bank, rfl⟩
  · intro h hm
    unfold handleNext
    rw [if_neg h, if_pos hm]
    exact ⟨rfl, rfl, rfl, rfl, rfl⟩

def w8a : Session := ⟨Mode.study, none, [w7q, w7q], 0, some 0, 0, false⟩

def w8b : Session := ⟨Mode.study, none, [w7q], 0, some 0, 0, false⟩

def w8c : Session := ⟨Mode.practiceTest, none, [w7q], 0, some 1, 3, false⟩

/-- C8, witness: the three branches exercised on concrete sessions — a
mid-deck advance, an exhausted study deck over the empty filter, and an
exhausted practice-test deck. -/
theorem claim_C8_advance_witness :
    ((handleNext wDeckRng [] w8a).currentIndex = w8a.currentIndex + 1 ∧
     (handleNext wDeckRng [] w8a).selectedOption = none ∧
     (handleNext wDeckRng [] w8a).deck = w8a.deck ∧
     (handleNext wDeckRng [] w8a).showSummary = w8a.showSummary) ∧
    ((handleNext wDeckRng [] w8b).currentIndex = 0 ∧
     (handleNext wDeckRng [] w8b).selectedOption = none ∧
     (handleNext wDeckRng [] w8b).deck.length =
       (filteredSources [] w8b.activeCategory).length ∧
     List.Perm ((handleNext wDeckRng [] w8b).deck.map (fun q => q.id))
       ((filteredSources [] w8b.activeCategory).map (fun f => f.id)) ∧
     (handleNext wDeckRng [] w8b).showSummary = w8b.showSummary) ∧
    ((handleNext wDeckRng [] w8c).showSummary = true ∧
     (handleNext wDeckRng [] w8c).deck = w8c.deck ∧
     (handleNext wDeckRng [] w8c).currentIndex = w8c.currentIndex ∧
     (handleNext wDeckRng [] w8c).selectedOption = w8c.selectedOption ∧
     (handleNext wDeckRng [] w8c).correctCount = w8c.correctCount) :=
  ⟨(claim_C8_advance wDeckRng [] w8a).1 (by decide),
   (claim_C8_advance wDeckRng [] w8b).2.1 (by decide) rfl,
   (claim_C8_advance wDeckRng [] w8c).2.2 (by decide) rfl⟩

/-- C9: at startup the theme is the stored preference when it is one of
the two enumerated values, otherwise the system dark/light signal,
otherwise the hardcoded light default; without a window the default is
used; a failed read behaves like a missing value, and a failed write is
swallowed, leaving the environment unchanged — no error ever escapes, and
a successful write round-trips. -/
theorem claim_C9_theme (env : ThemeEnv) (t : Theme) :
    (env.hasWindow = true →
      getPreferredTheme env = claimedPreferredTheme env) ∧
    (env.hasWindow = false → getPreferredTheme env = Theme.light) ∧
    persistTheme true env t = env ∧
    getPreferredTheme (persistTheme false { env with hasWindow := true } t) = t := by
  refine ⟨?_, ?_, rfl, ?_⟩
  · intro hw
    rcases env with ⟨hwv, st, mm⟩
    simp only at hw
    subst hw
    have hfb : (match mm with
        | some b => if b then Theme.dark else Theme.light
        | none => Theme.light) =
        systemFallback ⟨true, st, mm⟩ := by
      rcases mm with _ | b
      · rfl
      · cases b <;> rfl
    rcases st with v | _
    · rcases v with _ | sv
      · simp [getPreferredTheme, claimedPreferredTheme, storedTheme, hfb]
      · by_cases hl : sv = "light"
        · subst hl
          rfl
        · by_cases hd : sv = "dark"
          · subst hd
            rfl
          · simp [getPreferredTheme, claimedPreferredTheme, storedTheme, hl, hd, hfb]
    · simp [getPreferredTheme, claimedPreferredTheme, storedTheme, hfb]
  · intro hw
    unfold getPreferredTheme
    rw [hw]
    rfl
  · cases t <;> rfl

def w9envT : ThemeEnv := ⟨true, StorageRead.err, some true⟩

def w9envF : ThemeEnv := ⟨false, StorageRead.ok (some "dark"), some false⟩

/-- C9, witness: a windowed environment whose storage read throws (the
dark system signal wins), and a window-less environment (light). -/
theorem claim_C9_theme_witness :
    getPreferredTheme w9envT = claimedPreferredTheme w9envT ∧
    getPreferredTheme w9envF = Theme.light :=
  ⟨(claim_C9_theme w9envT Theme.dark).1 rfl,
   (claim_C9_theme w9envF Theme.dark).2.1 rfl⟩

/-- C10: `shuffleArray` returns a permutation of its input — same length
and the same multiset of elements — for every random stream; the input
list itself is never modified (the function copies it and only the copy is
swapped, which the purely functional embedding reflects), so shuffling
curated distractor lists and bank slices never modifies the question
bank. -/
theorem claim_C10_shuffle_perm {α : Type} [DecidableEq α] (g : RandSrc)
    (input : List α) :
    List.Perm (shuffleArray g input) input ∧
    (shuffleArray g input).length = input.length ∧
    ∀ a : α, (shuffleArray g input).count a = input.count a :=
  ⟨shuffleArray_perm g input, (shuffleArray_perm g input).length_eq,
   fun a => (shuffleArray_perm g input).count_eq a⟩

/-- The single card of the practice deck built from the one-record bank
`[exA]` with the zero random streams. -/
def w5q : PermitQuestion := ⟨"A", "p", ["Yield"], 0, "Yield", "r", "Signs", none⟩

/-- C5, witness: starting a practice test over the one-record bank `[exA]`
from the concrete session `w8b`. -/
theorem claim_C5_start_practice_witness :
    (startPracticeTest (fun _ => 0) wDeckRng [exA] w8b).mode = Mode.practiceTest ∧
    (startPracticeTest (fun _ => 0) wDeckRng [exA] w8b).correctCount = 0 ∧
    (startPracticeTest (fun _ => 0) wDeckRng [exA] w8b).currentIndex = 0 ∧
    (startPracticeTest (fun _ => 0) wDeckRng [exA] w8b).deck.length =
      min 50 ([exA] : List FlashcardSource).length ∧
    w5q ∈ (startPracticeTest (fun _ => 0) wDeckRng [exA] w8b).deck ∧
    w5q.id ∈ ([exA] : List FlashcardSource).map (fun b => b.id) := by
  have h := claim_C5_start_practice (fun _ => 0) wDeckRng [exA] w8b
  have hmem : w5q ∈ (startPracticeTest (fun _ => 0) wDeckRng [exA] w8b).deck := by
    decide
  exact ⟨h.1, h.2.1, h.2.2.1, h.2.2.2.2.2.1,
    hmem, h.2.2.2.2.2.2.1 w5q hmem⟩
